import Mathlib

/-!
Verification of the two utility scripts in this repository:
`extract_images.py` (PDF image extraction) and `process_files.py`
(text extraction plus API-based summarisation).

Python strings are modelled as lists of Unicode characters (`Str`), which
matches Python's code-point semantics for indexing, slicing and `len`.
The regular expression class `\d` is modelled as the ASCII digits, and
`str.lower` / `str.strip` via `Char.toLower` / `Char.isWhitespace`; on the
ASCII filenames and Japanese text these scripts handle, these agree with
Python's definitions.  Exceptions raised by library calls are modelled as
`Except` values; `try`/`except` blocks become case analysis on them.
Floating point values (the `size_kb` field of script 1) are not modelled:
the raw byte count is kept instead.
-/

abbrev Str := List Char

def str (s : String) : Str := s.data

/-- Python regex `\d`, modelled as the ASCII digits. -/
def isDigitCh (c : Char) : Bool := '0' ≤ c && c ≤ '9'

/-- One attempt of the pattern `(20\d\d|19\d\d)` at the head of the remaining
input (src/extract_images.py line 35). -/
def yearHere : Str → Option Str
  | c0 :: c1 :: c2 :: c3 :: _ =>
    if ((c0 = '2' && c1 = '0') || (c0 = '1' && c1 = '9')) && isDigitCh c2 && isDigitCh c3
    then some [c0, c1, c2, c3] else none
  | _ => none

/-- Whether a string is exactly a match of `(20\d\d|19\d\d)`. -/
def isYearToken : Str → Bool
  | [c0, c1, c2, c3] =>
    ((c0 = '2' && c1 = '0') || (c0 = '1' && c1 = '9')) && isDigitCh c2 && isDigitCh c3
  | _ => false

/-- re.search of the year pattern: the leftmost position where it matches
(src/extract_images.py line 35). -/
def searchYear : Str → Option Str
  | [] => none
  | c :: rest =>
    match yearHere (c :: rest) with
    | some y => some y
    | none => searchYear rest

/-- Lines 35-36 of src/extract_images.py: the extracted year, or "unknown". -/
def yearOf (stem : Str) : Str :=
  match searchYear stem with
  | some y => y
  | none => str "unknown"

/-- Maximal run of digits at the head of the input: the greedy `\d+`. -/
def takeDigits : Str → Str × Str
  | [] => ([], [])
  | c :: rest =>
    if isDigitCh c then
      let p := takeDigits rest
      (c :: p.1, p.2)
    else ([], c :: rest)

/-- The part of the page pattern after the separator: `[pP]?(\d+)`.  The
optional `[pP]` is greedy; if no digits follow a consumed `p`/`P` the
backtracked alternative starts `\d+` at that same non-digit, so it fails
too, which the `none` results reflect. -/
def pageAfterSep : Str → Option Str
  | [] => none
  | c :: rest =>
    if c = 'p' || c = 'P' then
      let p := takeDigits rest
      if p.1 = [] then none else some p.1
    else
      let p := takeDigits (c :: rest)
      if p.1 = [] then none else some p.1

/-- The part of the page pattern after the first digit group: the separator
`[-_]` followed by `[pP]?(\d+)`.  `d1` carries the first group through. -/
def pageSepTail (d1 : Str) : Str → Option (Str × Str)
  | [] => none
  | sep :: rest2 =>
    if sep = '-' || sep = '_' then
      match pageAfterSep rest2 with
      | some g2 => some (d1, g2)
      | none => none
    else none

/-- One attempt of `[pP](\d+)[-_][pP]?(\d+)` at the head of the remaining
input (src/extract_images.py line 39), returning the two digit groups. -/
def pageHere : Str → Option (Str × Str)
  | [] => none
  | c :: rest =>
    if c = 'p' || c = 'P' then
      let p := takeDigits rest
      if p.1 = [] then none else pageSepTail p.1 p.2
    else none

/-- re.search of the page pattern: the leftmost position where it matches. -/
def searchPage : Str → Option (Str × Str)
  | [] => none
  | c :: rest =>
    match pageHere (c :: rest) with
    | some r => some r
    | none => searchPage rest

/-- Lines 39-43 of src/extract_images.py: `p{g1}-p{g2}`, or "full". -/
def pageInfoOf (stem : Str) : Str :=
  match searchPage stem with
  | some r => str "p" ++ r.1 ++ str "-p" ++ r.2
  | none => str "full"

/-- Python `{n:02d}`: zero-pad to width 2 (no truncation above). -/
def pad2 (n : Nat) : Str :=
  if n < 10 then '0' :: (Nat.repr n).data else (Nat.repr n).data

/-- Line 72 of src/extract_images.py: the generated image file name. -/
def imgFilename (year page_info : Str) (img_index : Nat) (ext : Str) : Str :=
  year ++ str "_" ++ page_info ++ str "_img" ++ pad2 (img_index + 1) ++ str "." ++ ext

/-- The data `doc.extract_image(xref)` yields for one embedded image. -/
structure RawImage where
  ext : Str
  width : Nat
  height : Nat
  bytes : List Nat
deriving DecidableEq

/-- A file written by script 1.  `srcPage`, `srcIdx` and `srcExt` are ghost
provenance fields recording which page/in-page index/image format the write
came from; the script itself writes only `path` and `bytes`. -/
structure WrittenFile where
  path : Str
  bytes : List Nat
  srcPage : Nat
  srcIdx : Nat
  srcExt : Str
deriving DecidableEq

/-- One entry of the `extracted_images` list (lines 79-86 of
src/extract_images.py).  `size_bytes` stands for `len(image_bytes)`
(the script stores `size_kb = size_bytes/1024` as a float, not modelled);
`srcPage`, `srcIdx`, `srcExt` are ghost provenance fields. -/
structure ExtractedImage where
  filename : Str
  path : Str
  source_pdf : Str
  width : Nat
  height : Nat
  size_bytes : Nat
  srcPage : Nat
  srcIdx : Nat
  srcExt : Str
deriving DecidableEq

instance {ε α : Type} [DecidableEq ε] [DecidableEq α] : DecidableEq (Except ε α) := fun a b =>
  match a, b with
  | .error e, .error f =>
    if h : e = f then .isTrue (by rw [h]) else .isFalse (by intro hh; cases hh; exact h rfl)
  | .ok x, .ok y =>
    if h : x = y then .isTrue (by rw [h]) else .isFalse (by intro hh; cases hh; exact h rfl)
  | .error _, .ok _ => .isFalse (by intro hh; cases hh)
  | .ok _, .error _ => .isFalse (by intro hh; cases hh)

/-- A PDF document as script 1 sees it: either `fitz.open` (or the page
iteration) raises, or it yields per page the list of per-image extraction
outcomes (`doc.extract_image` may raise per image, caught at lines 88-90). -/
structure PdfDoc where
  openErr : Option Str
  pages : List (List (Except Str RawImage))
deriving DecidableEq

/-- Lines 60-90 of src/extract_images.py, for a single image: skipped when
extraction raised or when `width < 50 or height < 50`, otherwise the file
write and the appended list entry. -/
def processImage (year page_info pdf_name year_dir : Str) (page_num img_index : Nat) :
    Except Str RawImage → Option (WrittenFile × ExtractedImage)
  | .error _ => none
  | .ok img =>
    if img.width < 50 || img.height < 50 then none
    else
      let fn := imgFilename year page_info img_index img.ext
      let path := year_dir ++ str "/" ++ fn
      some (⟨path, img.bytes, page_num, img_index, img.ext⟩,
            ⟨fn, path, pdf_name, img.width, img.height, img.bytes.length,
             page_num, img_index, img.ext⟩)

/-- The inner `for img_index, img_info in enumerate(image_list)` loop. -/
def runImgs (year page_info pdf_name year_dir : Str) (page_num : Nat) :
    Nat → List (Except Str RawImage) → List (WrittenFile × ExtractedImage)
  | _, [] => []
  | i, r :: rest =>
    match processImage year page_info pdf_name year_dir page_num i r with
    | none => runImgs year page_info pdf_name year_dir page_num (i + 1) rest
    | some pr => pr :: runImgs year page_info pdf_name year_dir page_num (i + 1) rest

/-- The outer `for page_num, page in enumerate(doc)` loop. -/
def runPages (year page_info pdf_name year_dir : Str) :
    Nat → List (List (Except Str RawImage)) → List (WrittenFile × ExtractedImage)
  | _, [] => []
  | p, pg :: rest =>
    runImgs year page_info pdf_name year_dir p 0 pg ++
      runPages year page_info pdf_name year_dir (p + 1) rest

/-- `extract_images_from_pdf` (src/extract_images.py lines 17-98), returning
both the files written on disk and the returned list.  When `fitz.open`
raises, the outer `except` returns `[]` before anything is written. -/
def extract_images_from_pdf (pdf_stem output_dir : Str) (doc : PdfDoc) :
    List WrittenFile × List ExtractedImage :=
  let year := yearOf pdf_stem
  let page_info := pageInfoOf pdf_stem
  let year_dir := output_dir ++ str "/" ++ year
  match doc.openErr with
  | some _ => ([], [])
  | none =>
    let entries := runPages year page_info pdf_stem year_dir 0 doc.pages
    (entries.map Prod.fst, entries.map Prod.snd)

/-- One input file of script 1's `main` loop (lines 123-136): whether it
exists on disk, its stem, and the document behind it. -/
structure PdfFile where
  onDisk : Bool
  stem : Str
  doc : PdfDoc
deriving DecidableEq

/-- One iteration of script 1's `main` loop: missing files are skipped
(`none`), existing files are handed to `extract_images_from_pdf`, which
never raises (its own `try`/`except` turns failures into `[]`). -/
def script1ProcessOne (output_dir : Str) (f : PdfFile) :
    Option (List WrittenFile × List ExtractedImage) :=
  if f.onDisk then some (extract_images_from_pdf f.stem output_dir f.doc) else none

/-- Script 1's `main` loop over all requested PDF files. -/
def script1Batch (output_dir : Str) (files : List PdfFile) :
    List (Option (List WrittenFile × List ExtractedImage)) :=
  files.map (script1ProcessOne output_dir)

/-- An input file as script 2 sees it: its suffix (`file_path.suffix`,
including the dot, before lower-casing), whether the optional libraries
imported at lines 14-22 are present, and the outcomes of the three
library-based reads, each of which may raise. -/
structure DocFile where
  suffix : Str
  hasPyPDF2 : Bool
  hasDocx : Bool
  pdfPages : Except Str (List Str)
  docxParas : Except Str (List Str)
  txtContent : Except Str Str
deriving DecidableEq

/-- The fixed omission marker appended on truncation (lines 88 and 104). -/
def truncMarker : Str := str "\n...[以下省略]..."

/-- The truncation step shared by lines 87-88 and 103-104 of
src/process_files.py. -/
def truncate15000 (s : Str) : Str :=
  if s.length > 15000 then s.take 15000 ++ truncMarker else s

/-- Python `"\n".join`. -/
def joinNL (parts : List Str) : List Char := List.intercalate (str "\n") parts

/-- Python truthiness of `s.strip()`: false exactly when every character is
whitespace (in particular when `s` is empty). -/
def isBlank (s : Str) : Bool := s.all Char.isWhitespace

/-- `extract_text_from_pdf` (src/process_files.py lines 71-91).  Pages whose
`extract_text()` result is falsy (empty) are dropped at lines 82-83. -/
def extract_text_from_pdf (f : DocFile) : Str :=
  if f.hasPyPDF2 = false then str "[PyPDF2がインストールされていません]"
  else
    match f.pdfPages with
    | .error e => str "[PDF読み取りエラー: " ++ e ++ str "]"
    | .ok pages =>
      let full_text := joinNL (pages.filter (fun p => p ≠ []))
      let full_text := truncate15000 full_text
      if isBlank full_text then str "[テキスト抽出不可 - スキャンPDFの可能性]" else full_text

/-- `extract_text_from_docx` (src/process_files.py lines 94-107).
Paragraphs whose stripped text is falsy are dropped at line 101. -/
def extract_text_from_docx (f : DocFile) : Str :=
  if f.hasDocx = false then str "[python-docxがインストールされていません]"
  else
    match f.docxParas with
    | .error e => str "[DOCX読み取りエラー: " ++ e ++ str "]"
    | .ok paras =>
      let full_text := joinNL (paras.filter (fun p => isBlank p = false))
      let full_text := truncate15000 full_text
      if isBlank full_text then str "[テキストが空です]" else full_text

/-- Python `str.lower` (ASCII range, which covers the suffixes in play). -/
def lowerStr (s : Str) : Str := s.map Char.toLower

/-- `extract_text` (src/process_files.py lines 110-127): dispatch on the
lower-cased suffix.  A total function: every failure path returns a
placeholder string instead of raising. -/
def extract_text (f : DocFile) : Str :=
  let suffix := lowerStr f.suffix
  if suffix = str ".pdf" then extract_text_from_pdf f
  else if suffix = str ".docx" then extract_text_from_docx f
  else if suffix = str ".doc" then str "[.doc形式は非対応 - .docxに変換が必要]"
  else if suffix = str ".txt" then
    match f.txtContent with
    | .ok s => s.take 15000
    | .error _ => str "[テキスト読み取りエラー]"
  else str "[非対応ファイル形式: " ++ suffix ++ str "]"

/-- One input file of script 2: its name (`file_path.name`), the document
contents, and the outcome of the chat-completion call were it attempted. -/
structure ApiFile where
  name : Str
  file : DocFile
  api : Except Str Str
deriving DecidableEq

/-- The report entry built at line 140 for extraction errors. -/
def errSection (name content : Str) : Str :=
  str "\n---\n\n## " ++ name ++ str "\n\n**エラー**: " ++ content ++ str "\n\n---\n"

/-- The report entry built at line 169 for API errors. -/
def apiErrSection (name e : Str) : Str :=
  str "\n---\n\n## " ++ name ++ str "\n\n**APIエラー**: " ++ e ++ str "\n\n---\n"

/-- Python `content.startswith("[")`. -/
def startsWithLB : Str → Bool
  | [] => false
  | c :: _ => c = '['

/-- Python `content.endswith("]")`. -/
def endsWithRB (s : Str) : Bool := s.getLast? = some ']'

/-- `process_file` (src/process_files.py lines 130-169).  Returns the string
appended to the report together with a flag recording whether the
chat-completion API was invoked.  Total: API failures are caught at
lines 167-169. -/
def process_file (f : ApiFile) : Str × Bool :=
  let content := extract_text f.file
  if startsWithLB content && endsWithRB content then
    (errSection f.name content, false)
  else
    match f.api with
    | .ok result => (result, true)
    | .error e => (apiErrSection f.name e, true)

/-- The `results` list accumulated by `process_folder`'s loop
(src/process_files.py lines 196-200). -/
def folderResults (fs : List ApiFile) : List (Str × Bool) := fs.map process_file

/-- Python `<` on strings: lexicographic comparison of code points, extended
to the reflexive `≤` that a stable sort needs. -/
def strLe : Str → Str → Bool
  | [], _ => true
  | _ :: _, [] => false
  | a :: as, b :: bs => if a < b then true else if b < a then false else strLe as bs

/-- Whether the file name matches the glob pattern `*<ext>`. -/
def hasExt (f : ApiFile) (ext : String) : Bool := (str ext).isSuffixOf f.name

/-- Membership in one of the four globs of src/process_files.py line 182. -/
def supportedFile (f : ApiFile) : Bool :=
  hasExt f ".pdf" || hasExt f ".docx" || hasExt f ".doc" || hasExt f ".txt"

/-- Lines 181-185 of src/process_files.py: the four globs concatenated, then
`sorted(files, key=lambda x: x.name)` (a stable sort by name, like Python's). -/
def process_folder_files (entries : List ApiFile) : List ApiFile :=
  ((entries.filter (fun f => hasExt f ".pdf")) ++
   (entries.filter (fun f => hasExt f ".docx")) ++
   (entries.filter (fun f => hasExt f ".doc")) ++
   (entries.filter (fun f => hasExt f ".txt"))).mergeSort
    (fun a b => strLe a.name b.name)

/-- The per-file report entries `process_folder` joins with `"\n"` and
appends to the output file (lines 196-207): one entry per selected file,
in the processed order. -/
def reportSections (entries : List ApiFile) : List Str :=
  (process_folder_files entries).map (fun f => (process_file f).1)

/-- The fixed folder list of script 2's `main` (lines 228-239). -/
def folders_default : List String :=
  ["1_学会発表論文", "2_体験談推薦文", "3_解説原稿", "4_協会誌詳細",
   "5_スターライトヒーリング", "6_CD_書籍関連", "7_メディア掲載", "8_体感音響",
   "9_自然音エビデンス", "10_その他"]

/-- Lines 241-243 of src/process_files.py: command-line arguments replace
the default folder list when present. -/
def mainFolders (args : List String) : List String :=
  if args.isEmpty then folders_default else args

/-- Lines 246-251: the folders actually handed to `process_folder`, i.e.
those of the chosen list that exist on disk (`ex`), in list order. -/
def processedFolders (ex : String → Bool) (args : List String) : List String :=
  (mainFolders args).filter ex

/-- The `'='*60` separator used around a folder heading. -/
def eq60 : Str := List.replicate 60 '='

/-- The header written by script 2's `main` at lines 222-225. -/
def reportHeader (ts : Str) : Str :=
  str "# 資料まとめ（API処理結果）\n\n" ++ str "OpenAI GPT-4o-mini による自動処理結果\n" ++
    str "処理日時: " ++ ts ++ str "\n\n"

/-- The initialization write of `main` (lines 221-225): the file is opened
with mode "w", so whatever content `prev` the file held before is
discarded and replaced by the header. -/
def initReportWrite (_prev : Str) (ts : Str) : Str := reportHeader ts

/-- The write `process_folder` performs at lines 202-207: the file is opened
with mode "a", so the new material goes after the existing content. -/
def appendFolderWrite (prev folder_name : Str) (results : List Str) : Str :=
  prev ++ str "\n\n" ++ eq60 ++ str "\n" ++ str "# " ++ folder_name ++ str "\n" ++
    eq60 ++ str "\n\n" ++ joinNL results

/-- The first PDF used by the concrete checks: one page with a 100x80 image
followed by a 10x10 icon. -/
def docOnePage : PdfDoc :=
  ⟨none, [[.ok ⟨str "png", 100, 80, [1, 2, 3]⟩, .ok ⟨str "png", 10, 10, [9]⟩]]⟩

/-- The second PDF used by the concrete checks: a 100x80 image on page 0 and
a 60x70 image on page 1, both PNG. -/
def docTwoPages : PdfDoc :=
  ⟨none, [[.ok ⟨str "png", 100, 80, [1, 2, 3]⟩], [.ok ⟨str "png", 60, 70, [5]⟩]]⟩

theorem processImage_err (year page_info pdf_name year_dir : Str) (page_num img_index : Nat)
    (m : Str) :
    processImage year page_info pdf_name year_dir page_num img_index (.error m) = none := rfl

theorem processImage_small (year page_info pdf_name year_dir : Str) (page_num img_index : Nat)
    (img : RawImage) (h : img.width < 50 ∨ img.height < 50) :
    processImage year page_info pdf_name year_dir page_num img_index (.ok img) = none := by
  have hc : (img.width < 50 || img.height < 50) = true := by
    rcases h with h | h <;> simp [h]
  simp [processImage, hc]

theorem processImage_big (year page_info pdf_name year_dir : Str) (page_num img_index : Nat)
    (img : RawImage) (h1 : 50 ≤ img.width) (h2 : 50 ≤ img.height) :
    processImage year page_info pdf_name year_dir page_num img_index (.ok img) =
      some (⟨year_dir ++ str "/" ++ imgFilename year page_info img_index img.ext,
             img.bytes, page_num, img_index, img.ext⟩,
            ⟨imgFilename year page_info img_index img.ext,
             year_dir ++ str "/" ++ imgFilename year page_info img_index img.ext,
             pdf_name, img.width, img.height, img.bytes.length,
             page_num, img_index, img.ext⟩) := by
  have hc : (img.width < 50 || img.height < 50) = false := by
    simp [Nat.not_lt.2 h1, Nat.not_lt.2 h2]
  simp [processImage, hc]

theorem processImage_some (year page_info pdf_name year_dir : Str) (page_num img_index : Nat)
    (r : Except Str RawImage) (w : WrittenFile) (e : ExtractedImage)
    (h : processImage year page_info pdf_name year_dir page_num img_index r = some (w, e)) :
    w.srcPage = page_num ∧ w.srcIdx = img_index ∧ e.srcPage = page_num ∧ e.srcIdx = img_index ∧
      w.srcExt = e.srcExt ∧ e.filename = imgFilename year page_info img_index e.srcExt ∧
      e.path = year_dir ++ str "/" ++ e.filename ∧ w.path = e.path ∧
      50 ≤ e.width ∧ 50 ≤ e.height := by
  cases r with
  | error m => simp [processImage] at h
  | ok img =>
    by_cases hc : (img.width < 50 || img.height < 50) = true
    · simp [processImage, hc] at h
    · rw [Bool.not_eq_true] at hc
      simp [processImage, hc] at h
      obtain ⟨hw, he⟩ := h
      subst hw he
      have hwle : 50 ≤ img.width := by
        by_contra hlt
        simp [Nat.lt_of_not_le hlt] at hc
      have hhle : 50 ≤ img.height := by
        by_contra hlt
        simp [Nat.lt_of_not_le hlt] at hc
      refine ⟨rfl, rfl, rfl, rfl, rfl, rfl, ?_, rfl, hwle, hhle⟩
      simp [List.append_assoc]

theorem mem_runImgs (year page_info pdf_name year_dir : Str) (page_num : Nat) :
    ∀ (i0 : Nat) (imgs : List (Except Str RawImage)) (pr : WrittenFile × ExtractedImage),
      pr ∈ runImgs year page_info pdf_name year_dir page_num i0 imgs ↔
      ∃ j r, imgs[j]? = some r ∧
        processImage year page_info pdf_name year_dir page_num (i0 + j) r = some pr := by
  intro i0 imgs
  induction imgs generalizing i0 with
  | nil => intro pr; simp [runImgs]
  | cons r rest ih =>
    intro pr
    constructor
    · intro hmem
      unfold runImgs at hmem
      cases hpr : processImage year page_info pdf_name year_dir page_num i0 r with
      | none =>
        rw [hpr] at hmem
        obtain ⟨j, r', hj, hproc⟩ := (ih (i0 + 1) pr).1 hmem
        refine ⟨j + 1, r', by simpa using hj, ?_⟩
        rw [show i0 + (j + 1) = i0 + 1 + j by omega]
        exact hproc
      | some pr' =>
        rw [hpr] at hmem
        rcases List.mem_cons.1 hmem with h | h
        · exact ⟨0, r, by simp, by rw [Nat.add_zero, hpr, h]⟩
        · obtain ⟨j, r', hj, hproc⟩ := (ih (i0 + 1) pr).1 h
          refine ⟨j + 1, r', by simpa using hj, ?_⟩
          rw [show i0 + (j + 1) = i0 + 1 + j by omega]
          exact hproc
    · rintro ⟨j, r', hj, hproc⟩
      cases j with
      | zero =>
        rw [List.getElem?_cons_zero] at hj
        cases hj
        rw [Nat.add_zero] at hproc
        unfold runImgs
        rw [hproc]
        exact List.mem_cons_self _ _
      | succ j' =>
        rw [List.getElem?_cons_succ] at hj
        rw [show i0 + (j' + 1) = i0 + 1 + j' by omega] at hproc
        have hrest := (ih (i0 + 1) pr).2 ⟨j', r', hj, hproc⟩
        unfold runImgs
        cases hpr : processImage year page_info pdf_name year_dir page_num i0 r with
        | none => exact hrest
        | some pr' => exact List.mem_cons_of_mem _ hrest

theorem mem_runPages (year page_info pdf_name year_dir : Str) :
    ∀ (n0 : Nat) (pages : List (List (Except Str RawImage))) (pr : WrittenFile × ExtractedImage),
      pr ∈ runPages year page_info pdf_name year_dir n0 pages ↔
      ∃ k pg, pages[k]? = some pg ∧
        pr ∈ runImgs year page_info pdf_name year_dir (n0 + k) 0 pg := by
  intro n0 pages
  induction pages generalizing n0 with
  | nil => intro pr; simp [runPages]
  | cons pg rest ih =>
    intro pr
    unfold runPages
    rw [List.mem_append]
    constructor
    · rintro (h | h)
      · exact ⟨0, pg, by simp, by rwa [Nat.add_zero]⟩
      · obtain ⟨k, pg', hk, hmem⟩ := (ih (n0 + 1) pr).1 h
        refine ⟨k + 1, pg', by simpa using hk, ?_⟩
        rwa [show n0 + (k + 1) = n0 + 1 + k by omega]
    · rintro ⟨k, pg', hk, hmem⟩
      cases k with
      | zero =>
        rw [List.getElem?_cons_zero] at hk
        cases hk
        rw [Nat.add_zero] at hmem
        exact Or.inl hmem
      | succ k' =>
        rw [List.getElem?_cons_succ] at hk
        rw [show n0 + (k' + 1) = n0 + 1 + k' by omega] at hmem
        exact Or.inr ((ih (n0 + 1) pr).2 ⟨k', pg', hk, hmem⟩)

theorem extract_open_none (pdf_stem output_dir : Str) (doc : PdfDoc)
    (h : doc.openErr = none) :
    extract_images_from_pdf pdf_stem output_dir doc =
      ((runPages (yearOf pdf_stem) (pageInfoOf pdf_stem) pdf_stem
          (output_dir ++ str "/" ++ yearOf pdf_stem) 0 doc.pages).map Prod.fst,
       (runPages (yearOf pdf_stem) (pageInfoOf pdf_stem) pdf_stem
          (output_dir ++ str "/" ++ yearOf pdf_stem) 0 doc.pages).map Prod.snd) := by
  unfold extract_images_from_pdf
  rw [h]

theorem extract_open_err (pdf_stem output_dir : Str) (doc : PdfDoc) (e : Str)
    (h : doc.openErr = some e) :
    extract_images_from_pdf pdf_stem output_dir doc = ([], []) := by
  unfold extract_images_from_pdf
  rw [h]

theorem extracted_mem_char (stem dir : Str) (doc : PdfDoc) (e : ExtractedImage)
    (h : e ∈ (extract_images_from_pdf stem dir doc).2) :
    e.filename = imgFilename (yearOf stem) (pageInfoOf stem) e.srcIdx e.srcExt ∧
      e.path = dir ++ str "/" ++ yearOf stem ++ str "/" ++ e.filename ∧
      50 ≤ e.width ∧ 50 ≤ e.height := by
  cases hopen : doc.openErr with
  | some m => rw [extract_open_err stem dir doc m hopen] at h; simp at h
  | none =>
    rw [extract_open_none stem dir doc hopen] at h
    obtain ⟨pr, hpr, hsnd⟩ := List.mem_map.1 h
    obtain ⟨k, pg', hk, hmi⟩ := (mem_runPages _ _ _ _ 0 doc.pages pr).1 hpr
    obtain ⟨j, r, hj, hproc⟩ := (mem_runImgs _ _ _ _ _ 0 pg' pr).1 hmi
    obtain ⟨w', e'⟩ := pr
    cases hsnd
    obtain ⟨-, -, hpage, hidx, -, hfn, hpath, -, hwle, hhle⟩ :=
      processImage_some _ _ _ _ _ _ r w' e' hproc
    rw [Nat.zero_add] at hidx
    rw [Nat.zero_add] at hfn
    rw [← hidx] at hfn
    exact ⟨hfn, hpath, hwle, hhle⟩

theorem written_mem_char (stem dir : Str) (doc : PdfDoc) (w : WrittenFile)
    (h : w ∈ (extract_images_from_pdf stem dir doc).1) :
    w.path = dir ++ str "/" ++ yearOf stem ++ str "/" ++
      imgFilename (yearOf stem) (pageInfoOf stem) w.srcIdx w.srcExt := by
  cases hopen : doc.openErr with
  | some m => rw [extract_open_err stem dir doc m hopen] at h; simp at h
  | none =>
    rw [extract_open_none stem dir doc hopen] at h
    obtain ⟨pr, hpr, hfst⟩ := List.mem_map.1 h
    obtain ⟨k, pg', hk, hmi⟩ := (mem_runPages _ _ _ _ 0 doc.pages pr).1 hpr
    obtain ⟨j, r, hj, hproc⟩ := (mem_runImgs _ _ _ _ _ 0 pg' pr).1 hmi
    obtain ⟨w', e'⟩ := pr
    cases hfst
    obtain ⟨-, hwidx, -, heidx, hext, hfn, hpath, hwp, -, -⟩ :=
      processImage_some _ _ _ _ _ _ r w' e' hproc
    rw [Nat.zero_add] at hwidx heidx hfn
    show w'.path = dir ++ str "/" ++ yearOf stem ++ str "/" ++
      imgFilename (yearOf stem) (pageInfoOf stem) w'.srcIdx w'.srcExt
    rw [hwp, hpath, hfn, hwidx, hext]

/-- C1: an embedded image with width < 50 or height < 50 is excluded from
output — no file is written for it and it is absent from the returned
list — while an image with width ≥ 50 and height ≥ 50 whose extraction
succeeds is both written and listed (src/extract_images.py lines 60-90). -/
theorem c1_size_threshold (stem dir : Str) (doc : PdfDoc)
    (p i : Nat) (pg : List (Except Str RawImage)) (img : RawImage)
    (hopen : doc.openErr = none)
    (hp : doc.pages[p]? = some pg) (hi : pg[i]? = some (Except.ok img)) :
    ((img.width < 50 ∨ img.height < 50) →
      (∀ w ∈ (extract_images_from_pdf stem dir doc).1, ¬(w.srcPage = p ∧ w.srcIdx = i)) ∧
      (∀ e ∈ (extract_images_from_pdf stem dir doc).2, ¬(e.srcPage = p ∧ e.srcIdx = i))) ∧
    (50 ≤ img.width → 50 ≤ img.height →
      (∃ w ∈ (extract_images_from_pdf stem dir doc).1,
        w.srcPage = p ∧ w.srcIdx = i ∧ w.bytes = img.bytes) ∧
      (∃ e ∈ (extract_images_from_pdf stem dir doc).2,
        e.srcPage = p ∧ e.srcIdx = i ∧ e.width = img.width ∧ e.height = img.height ∧
        e.filename = imgFilename (yearOf stem) (pageInfoOf stem) i img.ext)) := by
  rw [extract_open_none stem dir doc hopen]
  constructor
  · intro hsmall
    have hnone := processImage_small (yearOf stem) (pageInfoOf stem) stem
      (dir ++ str "/" ++ yearOf stem) p i img hsmall
    constructor
    · rintro w hw ⟨hwp, hwi⟩
      obtain ⟨pr, hpr, hfst⟩ := List.mem_map.1 hw
      obtain ⟨k, pg', hk, hmi⟩ := (mem_runPages _ _ _ _ 0 doc.pages pr).1 hpr
      obtain ⟨j, r, hj, hproc⟩ := (mem_runImgs _ _ _ _ _ 0 pg' pr).1 hmi
      obtain ⟨w', e'⟩ := pr
      cases hfst
      obtain ⟨hpage, hidx, -, -, -, -, -, -, -, -⟩ :=
        processImage_some _ _ _ _ _ _ r w' e' hproc
      rw [Nat.zero_add] at hpage hidx
      have hkp : k = p := by rw [← hpage]; exact hwp
      have hji : j = i := by rw [← hidx]; exact hwi
      subst hkp hji
      rw [hp] at hk
      injection hk with hk
      subst hk
      rw [hi] at hj
      injection hj with hj
      subst hj
      rw [Nat.zero_add, Nat.zero_add, hnone] at hproc
      exact Option.noConfusion hproc
    · rintro e he ⟨hep, hei⟩
      obtain ⟨pr, hpr, hsnd⟩ := List.mem_map.1 he
      obtain ⟨k, pg', hk, hmi⟩ := (mem_runPages _ _ _ _ 0 doc.pages pr).1 hpr
      obtain ⟨j, r, hj, hproc⟩ := (mem_runImgs _ _ _ _ _ 0 pg' pr).1 hmi
      obtain ⟨w', e'⟩ := pr
      cases hsnd
      obtain ⟨-, -, hpage, hidx, -, -, -, -, -, -⟩ :=
        processImage_some _ _ _ _ _ _ r w' e' hproc
      rw [Nat.zero_add] at hpage hidx
      have hkp : k = p := by rw [← hpage]; exact hep
      have hji : j = i := by rw [← hidx]; exact hei
      subst hkp hji
      rw [hp] at hk
      injection hk with hk
      subst hk
      rw [hi] at hj
      injection hj with hj
      subst hj
      rw [Nat.zero_add, Nat.zero_add, hnone] at hproc
      exact Option.noConfusion hproc
  · intro h1 h2
    have hbig := processImage_big (yearOf stem) (pageInfoOf stem) stem
      (dir ++ str "/" ++ yearOf stem) p i img h1 h2
    have hmi := (mem_runImgs (yearOf stem) (pageInfoOf stem) stem
      (dir ++ str "/" ++ yearOf stem) p 0 pg _).2
      ⟨i, .ok img, hi, by rw [Nat.zero_add]; exact hbig⟩
    have hmem := (mem_runPages (yearOf stem) (pageInfoOf stem) stem
      (dir ++ str "/" ++ yearOf stem) 0 doc.pages _).2
      ⟨p, pg, hp, by rw [Nat.zero_add]; exact hmi⟩
    constructor
    · exact ⟨_, List.mem_map_of_mem Prod.fst hmem, rfl, rfl, rfl⟩
    · exact ⟨_, List.mem_map_of_mem Prod.snd hmem, rfl, rfl, rfl, rfl, rfl⟩

theorem c1_size_threshold_witness :
    (extract_images_from_pdf (str "2023_p2-p3") (str "out") docOnePage).1 ≠ [] ∧
    (extract_images_from_pdf (str "2023_p2-p3") (str "out") docOnePage).2 ≠ [] ∧
    (⟨str "x", str "y", str "z", 10, 10, 1, 0, 1, str "png"⟩ : ExtractedImage) ∉
      (extract_images_from_pdf (str "2023_p2-p3") (str "out") docOnePage).2 := by
  have hpos := (c1_size_threshold (str "2023_p2-p3") (str "out") docOnePage 0 0
    [.ok ⟨str "png", 100, 80, [1, 2, 3]⟩, .ok ⟨str "png", 10, 10, [9]⟩]
    ⟨str "png", 100, 80, [1, 2, 3]⟩ rfl rfl rfl).2 (by decide) (by decide)
  have hneg := (c1_size_threshold (str "2023_p2-p3") (str "out") docOnePage 0 1
    [.ok ⟨str "png", 100, 80, [1, 2, 3]⟩, .ok ⟨str "png", 10, 10, [9]⟩]
    ⟨str "png", 10, 10, [9]⟩ rfl rfl rfl).1 (Or.inl (by decide))
  refine ⟨?_, ?_, ?_⟩
  · obtain ⟨w, hw, -⟩ := hpos.1
    exact List.ne_nil_of_mem hw
  · obtain ⟨e, he, -⟩ := hpos.2
    exact List.ne_nil_of_mem he
  · intro hmem
    exact hneg.2 _ hmem ⟨rfl, rfl⟩

/-- C10: the file name assigned to a saved image is a function of the
extracted year, the extracted page token, the in-page image index and the
image format only — the page number does not enter it — so two saved images
with the same in-page index and the same format get identical file names
and identical output paths, regardless of their pages. -/
theorem c10_filename_page_independent :
    (∀ (stem dir : Str) (doc : PdfDoc) (e : ExtractedImage),
      e ∈ (extract_images_from_pdf stem dir doc).2 →
      e.filename = imgFilename (yearOf stem) (pageInfoOf stem) e.srcIdx e.srcExt ∧
      e.path = dir ++ str "/" ++ yearOf stem ++ str "/" ++ e.filename) ∧
    (∀ (stem dir : Str) (doc : PdfDoc) (e1 e2 : ExtractedImage),
      e1 ∈ (extract_images_from_pdf stem dir doc).2 →
      e2 ∈ (extract_images_from_pdf stem dir doc).2 →
      e1.srcIdx = e2.srcIdx → e1.srcExt = e2.srcExt →
      e1.filename = e2.filename ∧ e1.path = e2.path) ∧
    (∀ (stem dir : Str) (doc : PdfDoc) (w1 w2 : WrittenFile),
      w1 ∈ (extract_images_from_pdf stem dir doc).1 →
      w2 ∈ (extract_images_from_pdf stem dir doc).1 →
      w1.srcIdx = w2.srcIdx → w1.srcExt = w2.srcExt → w1.path = w2.path) := by
  refine ⟨?_, ?_, ?_⟩
  · intro stem dir doc e he
    obtain ⟨hfn, hpath, -, -⟩ := extracted_mem_char stem dir doc e he
    exact ⟨hfn, hpath⟩
  · intro stem dir doc e1 e2 h1 h2 hidx hext
    obtain ⟨hfn1, hpath1, -, -⟩ := extracted_mem_char stem dir doc e1 h1
    obtain ⟨hfn2, hpath2, -, -⟩ := extracted_mem_char stem dir doc e2 h2
    have hfn : e1.filename = e2.filename := by rw [hfn1, hfn2, hidx, hext]
    exact ⟨hfn, by rw [hpath1, hpath2, hfn]⟩
  · intro stem dir doc w1 w2 h1 h2 hidx hext
    rw [written_mem_char stem dir doc w1 h1, written_mem_char stem dir doc w2 h2, hidx, hext]

theorem c10_filename_page_independent_witness :
    (⟨str "2023_p2-p3_img01.png", str "out/2023/2023_p2-p3_img01.png", str "2023_p2-p3",
        100, 80, 3, 0, 0, str "png"⟩ : ExtractedImage) ∈
      (extract_images_from_pdf (str "2023_p2-p3") (str "out") docTwoPages).2 ∧
    (⟨str "2023_p2-p3_img01.png", str "out/2023/2023_p2-p3_img01.png", str "2023_p2-p3",
        60, 70, 1, 1, 0, str "png"⟩ : ExtractedImage) ∈
      (extract_images_from_pdf (str "2023_p2-p3") (str "out") docTwoPages).2 ∧
    (⟨str "2023_p2-p3_img01.png", str "out/2023/2023_p2-p3_img01.png", str "2023_p2-p3",
        100, 80, 3, 0, 0, str "png"⟩ : ExtractedImage).filename =
      (⟨str "2023_p2-p3_img01.png", str "out/2023/2023_p2-p3_img01.png", str "2023_p2-p3",
        60, 70, 1, 1, 0, str "png"⟩ : ExtractedImage).filename ∧
    (⟨str "2023_p2-p3_img01.png", str "out/2023/2023_p2-p3_img01.png", str "2023_p2-p3",
        100, 80, 3, 0, 0, str "png"⟩ : ExtractedImage).path =
      (⟨str "2023_p2-p3_img01.png", str "out/2023/2023_p2-p3_img01.png", str "2023_p2-p3",
        60, 70, 1, 1, 0, str "png"⟩ : ExtractedImage).path := by
  have h1 : (⟨str "2023_p2-p3_img01.png", str "out/2023/2023_p2-p3_img01.png",
      str "2023_p2-p3", 100, 80, 3, 0, 0, str "png"⟩ : ExtractedImage) ∈
      (extract_images_from_pdf (str "2023_p2-p3") (str "out") docTwoPages).2 := by decide
  have h2 : (⟨str "2023_p2-p3_img01.png", str "out/2023/2023_p2-p3_img01.png",
      str "2023_p2-p3", 60, 70, 1, 1, 0, str "png"⟩ : ExtractedImage) ∈
      (extract_images_from_pdf (str "2023_p2-p3") (str "out") docTwoPages).2 := by decide
  have h := c10_filename_page_independent.2.1 (str "2023_p2-p3") (str "out") docTwoPages
    _ _ h1 h2 rfl rfl
  exact ⟨h1, h2, h.1, h.2⟩

theorem yearHere_some (s y : Str) (h : yearHere s = some y) :
    isYearToken y = true ∧ ∃ suf, s = y ++ suf := by
  rcases s with _ | ⟨c0, _ | ⟨c1, _ | ⟨c2, _ | ⟨c3, rest⟩⟩⟩⟩ <;> simp [yearHere] at h
  obtain ⟨hcond, hy⟩ := h
  subst hy
  constructor
  · simp [isYearToken, hcond]
  · exact ⟨rest, rfl⟩

theorem searchYear_cons_eq (c : Char) (rest : Str) :
    searchYear (c :: rest) =
      match yearHere (c :: rest) with
      | some y => some y
      | none => searchYear rest := rfl

theorem pageAfterSep_cons_eq (c : Char) (rest : Str) :
    pageAfterSep (c :: rest) =
      if c = 'p' || c = 'P' then
        if (takeDigits rest).1 = [] then none else some (takeDigits rest).1
      else
        if (takeDigits (c :: rest)).1 = [] then none else some (takeDigits (c :: rest)).1 := rfl

theorem pageHere_cons_eq (c : Char) (rest : Str) :
    pageHere (c :: rest) =
      if c = 'p' || c = 'P' then
        if (takeDigits rest).1 = [] then none
        else pageSepTail (takeDigits rest).1 (takeDigits rest).2
      else none := rfl

theorem pageSepTail_cons_eq (d1 : Str) (sep : Char) (rest2 : Str) :
    pageSepTail d1 (sep :: rest2) =
      if sep = '-' || sep = '_' then
        match pageAfterSep rest2 with
        | some g2 => some (d1, g2)
        | none => none
      else none := rfl

theorem searchPage_cons_eq (c : Char) (rest : Str) :
    searchPage (c :: rest) =
      match pageHere (c :: rest) with
      | some r => some r
      | none => searchPage rest := rfl

theorem yearHere_of_token (y : Str) (hy : isYearToken y = true) (suf : Str) :
    yearHere (y ++ suf) = some y := by
  rcases y with _ | ⟨c0, _ | ⟨c1, _ | ⟨c2, _ | ⟨c3, _ | ⟨c4, tail⟩⟩⟩⟩⟩
  · simp [isYearToken] at hy
  · simp [isYearToken] at hy
  · simp [isYearToken] at hy
  · simp [isYearToken] at hy
  · simp only [isYearToken] at hy
    simp only [List.cons_append, List.nil_append, yearHere]
    rw [hy]
    simp
  · simp [isYearToken] at hy

theorem searchYear_some (s y : Str) (h : searchYear s = some y) :
    isYearToken y = true ∧ ∃ pre suf, s = pre ++ y ++ suf := by
  induction s with
  | nil => simp [searchYear] at h
  | cons c rest ih =>
    rw [searchYear_cons_eq] at h
    cases hyh : yearHere (c :: rest) with
    | some y' =>
      rw [hyh] at h
      injection h with h
      subst h
      obtain ⟨htok, suf, hsuf⟩ := yearHere_some _ _ hyh
      exact ⟨htok, [], suf, by simpa using hsuf⟩
    | none =>
      rw [hyh] at h
      obtain ⟨htok, pre, suf, hdec⟩ := ih h
      exact ⟨htok, c :: pre, suf, by simp [hdec]⟩

theorem searchYear_append_ne_none (t : Str) (ht : yearHere t ≠ none) :
    ∀ pre : Str, searchYear (pre ++ t) ≠ none := by
  intro pre
  induction pre with
  | nil =>
    rw [List.nil_append]
    rcases t with _ | ⟨c, rest⟩
    · simp [yearHere] at ht
    · rw [searchYear_cons_eq]
      cases hyh : yearHere (c :: rest) with
      | some y => simp only [hyh]; simp
      | none => exact absurd hyh ht
  | cons a pre' ih =>
    rw [List.cons_append, searchYear_cons_eq]
    cases hyh : yearHere (a :: (pre' ++ t)) with
    | some y => simp only [hyh]; simp
    | none => simp only [hyh]; exact ih

theorem takeDigits_spec (s : Str) :
    s = (takeDigits s).1 ++ (takeDigits s).2 ∧ (takeDigits s).1.all isDigitCh = true := by
  induction s with
  | nil => simp [takeDigits]
  | cons c rest ih =>
    by_cases hc : isDigitCh c = true
    · simp only [takeDigits, hc, if_true]
      refine ⟨?_, ?_⟩
      · simpa using ih.1
      · simp [hc, ih.2]
    · rw [Bool.not_eq_true] at hc
      simp [takeDigits, hc]

theorem takeDigits_stops (d : Str) (hd : d.all isDigitCh = true) (c : Char)
    (hc : isDigitCh c = false) (t : Str) :
    takeDigits (d ++ c :: t) = (d, c :: t) := by
  induction d with
  | nil => simp [takeDigits, hc]
  | cons a d' ih =>
    rw [List.all_cons, Bool.and_eq_true] at hd
    rw [List.cons_append]
    simp only [takeDigits, hd.1, if_true, ih hd.2]

theorem takeDigits_ne_nil (g suf : Str) (hg : g ≠ []) (hall : g.all isDigitCh = true) :
    (takeDigits (g ++ suf)).1 ≠ [] := by
  rcases g with _ | ⟨c, g'⟩
  · exact absurd rfl hg
  · rw [List.all_cons, Bool.and_eq_true] at hall
    rw [List.cons_append]
    simp only [takeDigits, hall.1, if_true]
    simp

theorem digit_not_p (c : Char) (hc : isDigitCh c = true) : (c = 'p' || c = 'P') = false := by
  by_cases h1 : c = 'p'
  · subst h1; exact absurd hc (by decide)
  · by_cases h2 : c = 'P'
    · subst h2; exact absurd hc (by decide)
    · simp [h1, h2]

theorem pageAfterSep_some (t g : Str) (h : pageAfterSep t = some g) :
    g ≠ [] ∧ g.all isDigitCh = true ∧
      ∃ op r2, (op = [] ∨ op = ['p'] ∨ op = ['P']) ∧ t = op ++ g ++ r2 := by
  rcases t with _ | ⟨c2, rest3⟩
  · simp [pageAfterSep] at h
  · rw [pageAfterSep_cons_eq] at h
    by_cases hc2 : (c2 = 'p' || c2 = 'P') = true
    · rw [if_pos hc2] at h
      by_cases hnil : (takeDigits rest3).1 = []
      · rw [if_pos hnil] at h; cases h
      · rw [if_neg hnil] at h
        injection h with h
        subst h
        rw [Bool.or_eq_true, decide_eq_true_eq, decide_eq_true_eq] at hc2
        refine ⟨hnil, (takeDigits_spec rest3).2, [c2], (takeDigits rest3).2, ?_, ?_⟩
        · rcases hc2 with h | h
          · subst h; exact Or.inr (Or.inl rfl)
          · subst h; exact Or.inr (Or.inr rfl)
        · have hs := (takeDigits_spec rest3).1
          simp only [List.cons_append, List.nil_append]
          rw [← hs]
    · rw [if_neg hc2] at h
      by_cases hnil : (takeDigits (c2 :: rest3)).1 = []
      · rw [if_pos hnil] at h; cases h
      · rw [if_neg hnil] at h
        injection h with h
        subst h
        refine ⟨hnil, (takeDigits_spec (c2 :: rest3)).2, [], (takeDigits (c2 :: rest3)).2,
          Or.inl rfl, ?_⟩
        simp only [List.nil_append]
        exact (takeDigits_spec (c2 :: rest3)).1

theorem pageAfterSep_of_parts (op g2 suf : Str)
    (hop : op = [] ∨ op = ['p'] ∨ op = ['P'])
    (hg2 : g2 ≠ []) (hall : g2.all isDigitCh = true) :
    pageAfterSep (op ++ g2 ++ suf) ≠ none := by
  rcases g2 with _ | ⟨d, g2'⟩
  · exact absurd rfl hg2
  · rw [List.all_cons, Bool.and_eq_true] at hall
    have hne := takeDigits_ne_nil (d :: g2') suf (by simp)
      (by rw [List.all_cons, Bool.and_eq_true]; exact hall)
    have hne' := hne
    rw [List.cons_append] at hne'
    rcases hop with hop | hop | hop <;> subst hop
    · rw [List.nil_append, List.cons_append, pageAfterSep_cons_eq]
      have hcond : ¬ ((d = 'p' || d = 'P') = true) := by
        rw [digit_not_p d hall.1]; simp
      rw [if_neg hcond]
      rw [if_neg hne']
      simp
    · rw [List.singleton_append, List.cons_append, pageAfterSep_cons_eq]
      rw [if_pos (by decide)]
      rw [if_neg hne]
      simp
    · rw [List.singleton_append, List.cons_append, pageAfterSep_cons_eq]
      rw [if_pos (by decide)]
      rw [if_neg hne]
      simp

theorem pageHere_some (s g1 g2 : Str) (h : pageHere s = some (g1, g2)) :
    g1 ≠ [] ∧ g2 ≠ [] ∧ g1.all isDigitCh = true ∧ g2.all isDigitCh = true ∧
      ∃ c sep op suf, (c = 'p' ∨ c = 'P') ∧ (sep = '-' ∨ sep = '_') ∧
        (op = [] ∨ op = ['p'] ∨ op = ['P']) ∧
        s = c :: (g1 ++ sep :: (op ++ g2 ++ suf)) := by
  rcases s with _ | ⟨c, rest⟩
  · simp [pageHere] at h
  · rw [pageHere_cons_eq] at h
    rcases htd : takeDigits rest with ⟨d1, rem⟩
    have hspec := takeDigits_spec rest
    simp only [htd] at h hspec
    by_cases hc : (c = 'p' || c = 'P') = true
    · rw [if_pos hc] at h
      by_cases hnil : d1 = []
      · rw [if_pos hnil] at h; cases h
      · rw [if_neg hnil] at h
        rcases rem with _ | ⟨sep, rest2⟩
        · simp [pageSepTail] at h
        · rw [pageSepTail_cons_eq] at h
          by_cases hsep : (sep = '-' || sep = '_') = true
          · rw [if_pos hsep] at h
            cases hpas : pageAfterSep rest2 with
            | none => simp only [hpas] at h; exact Option.noConfusion h
            | some g2' =>
              simp only [hpas] at h
              injection h with h
              injection h with h1 h2
              subst h1
              subst h2
              obtain ⟨hg2ne, hg2all, op, r2, hop, hrest2⟩ := pageAfterSep_some rest2 g2' hpas
              refine ⟨hnil, hg2ne, hspec.2, hg2all, c, sep, op, r2, ?_, ?_, hop, ?_⟩
              · rw [Bool.or_eq_true, decide_eq_true_eq, decide_eq_true_eq] at hc
                exact hc
              · rw [Bool.or_eq_true, decide_eq_true_eq, decide_eq_true_eq] at hsep
                exact hsep
              · have hs := hspec.1
                rw [hrest2] at hs
                rw [hs]
          · rw [if_neg hsep] at h; cases h
    · rw [if_neg hc] at h; cases h

theorem pageHere_of_parts (c sep : Char) (g1 op g2 suf : Str)
    (hc : c = 'p' ∨ c = 'P') (hsep : sep = '-' ∨ sep = '_')
    (hop : op = [] ∨ op = ['p'] ∨ op = ['P'])
    (hg1 : g1 ≠ []) (ha1 : g1.all isDigitCh = true)
    (hg2 : g2 ≠ []) (ha2 : g2.all isDigitCh = true) :
    pageHere (c :: (g1 ++ sep :: (op ++ g2 ++ suf))) ≠ none := by
  rw [pageHere_cons_eq]
  have hcb : (c = 'p' || c = 'P') = true := by rcases hc with h | h <;> simp [h]
  rw [if_pos hcb]
  have hsepd : isDigitCh sep = false := by rcases hsep with h | h <;> subst h <;> decide
  have htd := takeDigits_stops g1 ha1 sep hsepd (op ++ g2 ++ suf)
  simp only [htd]
  rw [if_neg hg1]
  rw [pageSepTail_cons_eq]
  have hsb : (sep = '-' || sep = '_') = true := by rcases hsep with h | h <;> simp [h]
  rw [if_pos hsb]
  cases hpas : pageAfterSep (op ++ g2 ++ suf) with
  | none => exact absurd hpas (pageAfterSep_of_parts op g2 suf hop hg2 ha2)
  | some g2' => simp only [hpas]; simp

theorem searchPage_some (s g1 g2 : Str) (h : searchPage s = some (g1, g2)) :
    g1 ≠ [] ∧ g2 ≠ [] ∧ g1.all isDigitCh = true ∧ g2.all isDigitCh = true ∧
      ∃ pre c sep op suf, (c = 'p' ∨ c = 'P') ∧ (sep = '-' ∨ sep = '_') ∧
        (op = [] ∨ op = ['p'] ∨ op = ['P']) ∧
        s = pre ++ c :: (g1 ++ sep :: (op ++ g2 ++ suf)) := by
  induction s with
  | nil => simp [searchPage] at h
  | cons c0 rest ih =>
    rw [searchPage_cons_eq] at h
    cases hph : pageHere (c0 :: rest) with
    | some r =>
      rw [hph] at h
      injection h with h
      subst h
      obtain ⟨h1, h2, h3, h4, c, sep, op, suf, hcv, hsv, hov, hdec⟩ :=
        pageHere_some (c0 :: rest) g1 g2 hph
      exact ⟨h1, h2, h3, h4, [], c, sep, op, suf, hcv, hsv, hov, by simpa using hdec⟩
    | none =>
      rw [hph] at h
      obtain ⟨h1, h2, h3, h4, pre, c, sep, op, suf, hcv, hsv, hov, hdec⟩ := ih h
      exact ⟨h1, h2, h3, h4, c0 :: pre, c, sep, op, suf, hcv, hsv, hov, by simp [hdec]⟩

theorem searchPage_append_ne_none (t : Str) (ht : pageHere t ≠ none) :
    ∀ pre : Str, searchPage (pre ++ t) ≠ none := by
  intro pre
  induction pre with
  | nil =>
    rw [List.nil_append]
    rcases t with _ | ⟨c, rest⟩
    · simp [pageHere] at ht
    · rw [searchPage_cons_eq]
      cases hph : pageHere (c :: rest) with
      | some r => simp only [hph]; simp
      | none => exact absurd hph ht
  | cons a pre' ih =>
    rw [List.cons_append, searchPage_cons_eq]
    cases hph : pageHere (a :: (pre' ++ t)) with
    | some r => simp only [hph]; simp
    | none => simp only [hph]; exact ih

/-- C5: the year extracted from a PDF stem is a `19xx`/`20xx` four-digit
substring occurring in the stem (and one is found whenever the stem contains
one), the page token extracted is `pN-pM` built from a `pN-pM`-shaped
occurrence (case-insensitive `p`, `-` or `_` separator, optional second
`p`; one is found whenever such a token occurs), "unknown" and "full" are
used exactly when no match exists, and every saved image's file name is
`<year>_<page_info>_img<index+1, zero-padded to 2>.<ext>`. -/
theorem c5_year_page_extraction :
    (∀ stem y : Str, searchYear stem = some y →
      yearOf stem = y ∧ isYearToken y = true ∧ ∃ pre suf, stem = pre ++ y ++ suf) ∧
    (∀ stem : Str, searchYear stem = none → yearOf stem = str "unknown") ∧
    (∀ stem pre y suf : Str, stem = pre ++ y ++ suf → isYearToken y = true →
      searchYear stem ≠ none) ∧
    (∀ stem g1 g2 : Str, searchPage stem = some (g1, g2) →
      pageInfoOf stem = str "p" ++ g1 ++ str "-p" ++ g2 ∧
      g1 ≠ [] ∧ g2 ≠ [] ∧ g1.all isDigitCh = true ∧ g2.all isDigitCh = true ∧
      ∃ pre c sep op suf, (c = 'p' ∨ c = 'P') ∧ (sep = '-' ∨ sep = '_') ∧
        (op = [] ∨ op = ['p'] ∨ op = ['P']) ∧
        stem = pre ++ c :: (g1 ++ sep :: (op ++ g2 ++ suf))) ∧
    (∀ stem : Str, searchPage stem = none → pageInfoOf stem = str "full") ∧
    (∀ (stem pre : Str) (c : Char) (g1 : Str) (sep : Char) (op g2 suf : Str),
      (c = 'p' ∨ c = 'P') → (sep = '-' ∨ sep = '_') →
      (op = [] ∨ op = ['p'] ∨ op = ['P']) →
      g1 ≠ [] → g1.all isDigitCh = true → g2 ≠ [] → g2.all isDigitCh = true →
      stem = pre ++ c :: (g1 ++ sep :: (op ++ g2 ++ suf)) → searchPage stem ≠ none) ∧
    (∀ (stem dir : Str) (doc : PdfDoc) (e : ExtractedImage),
      e ∈ (extract_images_from_pdf stem dir doc).2 →
      e.filename = yearOf stem ++ str "_" ++ pageInfoOf stem ++ str "_img" ++
        pad2 (e.srcIdx + 1) ++ str "." ++ e.srcExt) := by
  refine ⟨?_, ?_, ?_, ?_, ?_, ?_, ?_⟩
  · intro stem y h
    obtain ⟨htok, pre, suf, hdec⟩ := searchYear_some stem y h
    refine ⟨?_, htok, pre, suf, hdec⟩
    simp only [yearOf, h]
  · intro stem h
    simp only [yearOf, h]
  · intro stem pre y suf hdec htok
    subst hdec
    rw [List.append_assoc]
    exact searchYear_append_ne_none (y ++ suf)
      (by rw [yearHere_of_token y htok suf]; simp) pre
  · intro stem g1 g2 h
    obtain ⟨h1, h2, h3, h4, pre, c, sep, op, suf, hcv, hsv, hov, hdec⟩ :=
      searchPage_some stem g1 g2 h
    refine ⟨?_, h1, h2, h3, h4, pre, c, sep, op, suf, hcv, hsv, hov, hdec⟩
    simp only [pageInfoOf, h]
  · intro stem h
    simp only [pageInfoOf, h]
  · intro stem pre c g1 sep op g2 suf hcv hsv hov hg1 ha1 hg2 ha2 hdec
    subst hdec
    exact searchPage_append_ne_none (c :: (g1 ++ sep :: (op ++ g2 ++ suf)))
      (pageHere_of_parts c sep g1 op g2 suf hcv hsv hov hg1 ha1 hg2 ha2) pre
  · intro stem dir doc e he
    exact (extracted_mem_char stem dir doc e he).1

theorem c5_year_page_extraction_witness :
    yearOf (str "2023_p2-p3") = str "2023" ∧
    pageInfoOf (str "2023_p2-p3") = str "p2-p3" ∧
    yearOf (str "joy_pdf") = str "unknown" ∧
    pageInfoOf (str "joy2023") = str "full" ∧
    searchYear (str "abc1999def") ≠ none ∧
    searchPage (str "x_p2-p3y") ≠ none ∧
    (⟨str "2023_p2-p3_img01.png", str "out/2023/2023_p2-p3_img01.png", str "2023_p2-p3",
        100, 80, 3, 0, 0, str "png"⟩ : ExtractedImage).filename =
      yearOf (str "2023_p2-p3") ++ str "_" ++ pageInfoOf (str "2023_p2-p3") ++ str "_img" ++
        pad2 (0 + 1) ++ str "." ++ str "png" := by
  refine ⟨?_, ?_, ?_, ?_, ?_, ?_, ?_⟩
  · exact (c5_year_page_extraction.1 (str "2023_p2-p3") (str "2023") (by decide)).1
  · have h := (c5_year_page_extraction.2.2.2.1 (str "2023_p2-p3") (str "2") (str "3")
      (by decide)).1
    rw [h]
    decide
  · exact c5_year_page_extraction.2.1 (str "joy_pdf") (by decide)
  · exact c5_year_page_extraction.2.2.2.2.1 (str "joy2023") (by decide)
  · exact c5_year_page_extraction.2.2.1 (str "abc1999def") (str "abc") (str "1999")
      (str "def") (by decide) (by decide)
  · exact c5_year_page_extraction.2.2.2.2.2.1 (str "x_p2-p3y") (str "x_") 'p' (str "2")
      '-' (str "p") (str "3") (str "y") (Or.inl rfl) (Or.inl rfl)
      (Or.inr (Or.inl rfl)) (by decide) (by decide) (by decide) (by decide) (by decide)
  · have h := c5_year_page_extraction.2.2.2.2.2.2 (str "2023_p2-p3") (str "out") docOnePage
      ⟨str "2023_p2-p3_img01.png", str "out/2023/2023_p2-p3_img01.png", str "2023_p2-p3",
        100, 80, 3, 0, 0, str "png"⟩ (by decide)
    exact h

/-- C4: for every file whose lower-cased suffix is none of `.pdf`, `.docx`,
`.doc`, `.txt`, `extract_text` returns the unsupported-format placeholder
naming that suffix, and for `.doc` it returns the fixed conversion-required
placeholder.  `extract_text` is a total function of the file model, so no
exception escapes on these paths. -/
theorem c4_unsupported_suffix (f : DocFile) :
    (lowerStr f.suffix ∉ ([str ".pdf", str ".docx", str ".doc", str ".txt"] : List Str) →
      extract_text f = str "[非対応ファイル形式: " ++ lowerStr f.suffix ++ str "]") ∧
    (lowerStr f.suffix = str ".doc" →
      extract_text f = str "[.doc形式は非対応 - .docxに変換が必要]") := by
  constructor
  · intro h
    rw [List.mem_cons, List.mem_cons, List.mem_cons, List.mem_singleton] at h
    push_neg at h
    obtain ⟨h1, h2, h3, h4⟩ := h
    simp only [extract_text]
    rw [if_neg h1, if_neg h2, if_neg h3, if_neg h4]
  · intro h
    simp only [extract_text]
    rw [h]
    rw [if_neg (by decide), if_neg (by decide), if_pos rfl]

theorem c4_unsupported_suffix_witness :
    extract_text ⟨str ".XLSX", true, true, .ok [], .ok [], .ok []⟩ =
      str "[非対応ファイル形式: .xlsx]" ∧
    extract_text ⟨str ".DOC", true, true, .ok [], .ok [], .ok []⟩ =
      str "[.doc形式は非対応 - .docxに変換が必要]" := by
  constructor
  · have h := (c4_unsupported_suffix ⟨str ".XLSX", true, true, .ok [], .ok [], .ok []⟩).1
      (by decide)
    rw [h]
    decide
  · exact (c4_unsupported_suffix ⟨str ".DOC", true, true, .ok [], .ok [], .ok []⟩).2 (by decide)

/-- C9: whenever the extracted text starts with "[" and ends with "]",
`process_file` classifies it as an error: it returns the error section for
the report and does not call the API (the `false` flag), even when that text
is genuine document content. -/
theorem c9_bracket_misclassification (f : ApiFile)
    (h1 : startsWithLB (extract_text f.file) = true)
    (h2 : endsWithRB (extract_text f.file) = true) :
    process_file f = (errSection f.name (extract_text f.file), false) := by
  simp only [process_file]
  rw [h1, h2]
  simp

theorem c9_bracket_misclassification_witness :
    process_file ⟨str "メモ.txt",
        ⟨str ".txt", true, true, .ok [], .ok [], .ok (str "[重要なお知らせ]")⟩,
        .ok (str "本文の要約")⟩ =
      (errSection (str "メモ.txt") (str "[重要なお知らせ]"), false) := by
  have h := c9_bracket_misclassification ⟨str "メモ.txt",
    ⟨str ".txt", true, true, .ok [], .ok [], .ok (str "[重要なお知らせ]")⟩,
    .ok (str "本文の要約")⟩ (by decide) (by decide)
  rw [h]
  decide

theorem truncate15000_spec (s : Str) :
    (truncate15000 s).length ≤ 15013 ∧
      (s.length > 15000 → truncate15000 s = s.take 15000 ++ truncMarker) ∧
      (s.length ≤ 15000 → truncate15000 s = s) := by
  by_cases h : s.length > 15000
  · rw [truncate15000, if_pos h]
    refine ⟨?_, fun _ => rfl, fun hc => absurd h (by omega)⟩
    rw [List.length_append, List.length_take]
    have hm := Nat.min_le_left 15000 s.length
    have ht : truncMarker.length = 13 := by decide
    omega
  · rw [truncate15000, if_neg h]
    exact ⟨by omega, fun hc => absurd hc h, fun _ => rfl⟩

theorem extract_text_from_pdf_cases (f : DocFile) :
    (extract_text_from_pdf f).length ≤ 15013 ∨
      ∃ e, extract_text_from_pdf f = str "[PDF読み取りエラー: " ++ e ++ str "]" := by
  by_cases hp : f.hasPyPDF2 = false
  · left
    simp only [extract_text_from_pdf, if_pos hp]
    decide
  · cases hpp : f.pdfPages with
    | error e =>
      right
      exact ⟨e, by simp only [extract_text_from_pdf, hpp, if_neg hp]⟩
    | ok pages =>
      left
      simp only [extract_text_from_pdf, hpp, if_neg hp]
      by_cases hb : isBlank (truncate15000 (joinNL (pages.filter (fun p => p ≠ [])))) = true
      · rw [if_pos hb]
        decide
      · rw [if_neg hb]
        exact (truncate15000_spec _).1

theorem extract_text_from_docx_cases (f : DocFile) :
    (extract_text_from_docx f).length ≤ 15013 ∨
      ∃ e, extract_text_from_docx f = str "[DOCX読み取りエラー: " ++ e ++ str "]" := by
  by_cases hp : f.hasDocx = false
  · left
    simp only [extract_text_from_docx, if_pos hp]
    decide
  · cases hpp : f.docxParas with
    | error e =>
      right
      exact ⟨e, by simp only [extract_text_from_docx, hpp, if_neg hp]⟩
    | ok paras =>
      left
      simp only [extract_text_from_docx, hpp, if_neg hp]
      by_cases hb :
          isBlank (truncate15000 (joinNL (paras.filter (fun p => isBlank p = false)))) = true
      · rw [if_pos hb]
        decide
      · rw [if_neg hb]
        exact (truncate15000_spec _).1

/-- C8 amended: PDF and DOCX extractions longer than 15000 characters are
truncated to their first 15000 characters plus the fixed 13-character
omission marker, and `.txt` files contribute at most their first 15000
characters; `extract_text`'s result can exceed 15000 + 13 characters only by
being an error or unsupported-format placeholder that interpolates the
file's suffix or a library exception message. -/
theorem c8_truncation_bound :
    (∀ s : Str, (truncate15000 s).length ≤ 15013 ∧
      (s.length > 15000 → truncate15000 s = s.take 15000 ++ truncMarker)) ∧
    (∀ f : DocFile, (extract_text f).length ≤ 15013 ∨
      extract_text f = str "[非対応ファイル形式: " ++ lowerStr f.suffix ++ str "]" ∨
      (∃ e, extract_text f = str "[PDF読み取りエラー: " ++ e ++ str "]") ∨
      (∃ e, extract_text f = str "[DOCX読み取りエラー: " ++ e ++ str "]")) := by
  constructor
  · intro s
    exact ⟨(truncate15000_spec s).1, (truncate15000_spec s).2.1⟩
  · intro f
    simp only [extract_text]
    by_cases h1 : lowerStr f.suffix = str ".pdf"
    · rw [if_pos h1]
      rcases extract_text_from_pdf_cases f with h | ⟨e, he⟩
      · exact Or.inl h
      · exact Or.inr (Or.inr (Or.inl ⟨e, he⟩))
    · rw [if_neg h1]
      by_cases h2 : lowerStr f.suffix = str ".docx"
      · rw [if_pos h2]
        rcases extract_text_from_docx_cases f with h | ⟨e, he⟩
        · exact Or.inl h
        · exact Or.inr (Or.inr (Or.inr ⟨e, he⟩))
      · rw [if_neg h2]
        by_cases h3 : lowerStr f.suffix = str ".doc"
        · rw [if_pos h3]
          left
          decide
        · rw [if_neg h3]
          by_cases h4 : lowerStr f.suffix = str ".txt"
          · rw [if_pos h4]
            cases htxt : f.txtContent with
            | ok s =>
              left
              simp only [htxt]
              rw [List.length_take]
              have hm := Nat.min_le_left 15000 s.length
              omega
            | error e =>
              left
              simp only [htxt]
              decide
          · rw [if_neg h4]
            exact Or.inr (Or.inl rfl)

theorem c8_truncation_bound_witness :
    truncate15000 (List.replicate 15001 'a') =
      (List.replicate 15001 'a').take 15000 ++ truncMarker ∧
    (truncate15000 (List.replicate 15001 'a')).length ≤ 15013 := by
  have h := c8_truncation_bound.1 (List.replicate 15001 'a')
  exact ⟨h.2 (by rw [List.length_replicate]; omega), h.1⟩

/-- C8 counterexample: a file whose suffix is 15100 characters long makes
`extract_text` return an unsupported-format placeholder longer than
15000 + 13 characters, refuting the claimed universal bound. -/
theorem c8_truncation_bound_counterexample :
    15013 <
      (extract_text ⟨List.replicate 15100 'z', true, true, .ok [], .ok [], .ok []⟩).length := by
  have hsuf : (⟨List.replicate 15100 'z', true, true, .ok [], .ok [], .ok []⟩ :
      DocFile).suffix = List.replicate 15100 'z' := rfl
  have hlow : lowerStr (List.replicate 15100 'z') = List.replicate 15100 'z' := by
    rw [lowerStr, List.map_replicate]
    rw [show Char.toLower 'z' = 'z' from by decide]
  have hne : ∀ t : Str, t.length ≤ 5 → lowerStr (List.replicate 15100 'z') ≠ t := by
    intro t ht hc
    rw [hlow] at hc
    have hlen := congrArg List.length hc
    rw [List.length_replicate] at hlen
    omega
  simp only [extract_text, hsuf]
  rw [if_neg (hne _ (by decide)), if_neg (hne _ (by decide)), if_neg (hne _ (by decide)),
    if_neg (hne _ (by decide))]
  rw [List.length_append, List.length_append, hlow, List.length_replicate]
  have hpre : (str "[非対応ファイル形式: ").length = 12 := by decide
  have hpost : (str "]").length = 1 := by decide
  omega

/-- C2: a failure on one input file is caught and turned into an inline
entry (script 1 prints and returns `[]`; script 2 returns an API-error
report section) and the per-file step is still applied to every later file
of the batch: the j-th batch outcome is exactly the processing of the j-th
file, whatever happened at an earlier index k. -/
theorem c2_per_file_isolation :
    (∀ (dir stem : Str) (doc : PdfDoc) (err : Str), doc.openErr = some err →
      extract_images_from_pdf stem dir doc = ([], [])) ∧
    (∀ (dir : Str) (files : List PdfFile) (k j : Nat) (fk fj : PdfFile) (err : Str),
      files[k]? = some fk → files[j]? = some fj → k < j → fk.doc.openErr = some err →
      (script1Batch dir files)[j]? = some (script1ProcessOne dir fj)) ∧
    (∀ (f : ApiFile) (e : Str), f.api = .error e →
      (startsWithLB (extract_text f.file) && endsWithRB (extract_text f.file)) = false →
      process_file f = (apiErrSection f.name e, true)) ∧
    (∀ (fs : List ApiFile) (k j : Nat) (fk fj : ApiFile), fs[k]? = some fk →
      fs[j]? = some fj → k < j →
      ((process_file fk).2 = false ∨ (∃ e, fk.api = .error e)) →
      (folderResults fs)[j]? = some (process_file fj)) := by
  refine ⟨?_, ?_, ?_, ?_⟩
  · intro dir stem doc err h
    exact extract_open_err stem dir doc err h
  · intro dir files k j fk fj err hk hj hkj herr
    simp only [script1Batch, List.getElem?_map, hj, Option.map_some']
  · intro f e hapi hcond
    simp only [process_file]
    rw [hcond]
    simp [hapi]
  · intro fs k j fk fj hk hj hkj hfail
    simp only [folderResults, List.getElem?_map, hj, Option.map_some']

theorem c2_per_file_isolation_witness :
    (script1Batch (str "out")
        [⟨true, str "a", ⟨some (str "boom"), []⟩⟩, ⟨true, str "2023_p2-p3", docOnePage⟩])[1]? =
      some (script1ProcessOne (str "out") ⟨true, str "2023_p2-p3", docOnePage⟩) ∧
    (folderResults
        [⟨str "a.txt", ⟨str ".txt", true, true, .ok [], .ok [], .ok (str "hello")⟩,
          .error (str "timeout")⟩,
         ⟨str "b.txt", ⟨str ".txt", true, true, .ok [], .ok [], .ok (str "world")⟩,
          .ok (str "ok")⟩])[1]? =
      some (process_file
        ⟨str "b.txt", ⟨str ".txt", true, true, .ok [], .ok [], .ok (str "world")⟩,
          .ok (str "ok")⟩) := by
  constructor
  · exact c2_per_file_isolation.2.1 (str "out") _ 0 1 _ _ (str "boom") rfl rfl
      (by omega) rfl
  · exact c2_per_file_isolation.2.2.2 _ 0 1 _ _ rfl rfl (by omega)
      (Or.inr ⟨str "timeout", rfl⟩)

/-- C6: with no command-line arguments, script 2 iterates exactly the fixed
ordered list of ten named subfolders; with arguments it iterates exactly the
given names in argument order.  Folders are processed in that order when they
exist on disk (`ex`). -/
theorem c6_folder_dispatch :
    mainFolders [] = folders_default ∧
    (∀ ex : String → Bool, (∀ f ∈ folders_default, ex f = true) →
      processedFolders ex [] = folders_default) ∧
    (∀ (ex : String → Bool) (args : List String), args ≠ [] →
      (∀ f ∈ args, ex f = true) → processedFolders ex args = args) := by
  refine ⟨rfl, ?_, ?_⟩
  · intro ex h
    simp only [processedFolders, mainFolders, List.isEmpty_nil, if_true]
    exact List.filter_eq_self.2 h
  · intro ex args hne h
    have hemp : args.isEmpty = false := by
      cases args with
      | nil => exact absurd rfl hne
      | cons a l => rfl
    simp only [processedFolders, mainFolders, hemp]
    rw [if_neg (by decide)]
    exact List.filter_eq_self.2 h

theorem c6_folder_dispatch_witness :
    processedFolders (fun _ => true) [] = folders_default ∧
    processedFolders (fun _ => true) ["7_メディア掲載"] = ["7_メディア掲載"] := by
  constructor
  · exact c6_folder_dispatch.2.1 (fun _ => true) (fun f hf => rfl)
  · exact c6_folder_dispatch.2.2 (fun _ => true) ["7_メディア掲載"] (by simp)
      (fun f hf => rfl)

/-- C7 counterexample: the initialization write of script 2's `main` opens
the report file with mode "w": content present before that write is
destroyed, not preserved — here the previous content "X" is neither a
prefix of the result nor contained in it at all. -/
theorem c7_append_only_counterexample :
    ¬ ((str "X") <+: initReportWrite (str "X") (str "2025-01-01")) ∧
    (initReportWrite (str "X") (str "2025-01-01")).contains 'X' = false := by
  constructor
  · rintro ⟨t, ht⟩
    have hx : str "X" ++ t = 'X' :: t := rfl
    rw [hx] at ht
    have hhead := congrArg List.head? ht
    rw [List.head?_cons] at hhead
    have hr : (initReportWrite (str "X") (str "2025-01-01")).head? = some '#' := by decide
    rw [hr] at hhead
    injection hhead with hhead
    exact absurd hhead (by decide)
  · decide

/-- C7 amended: the initialization write of `main` truncates the report to
the fixed header, discarding any previous content; after it, every write
(each `process_folder` append) preserves the content already present as a
prefix and only adds new material at the end. -/
theorem c7_append_only_amended :
    (∀ prev ts : Str, initReportWrite prev ts = reportHeader ts) ∧
    (∀ (prev folder_name : Str) (results : List Str),
      prev <+: appendFolderWrite prev folder_name results) := by
  refine ⟨fun prev ts => rfl, ?_⟩
  intro prev folder_name results
  simp only [appendFolderWrite, List.append_assoc]
  exact ⟨_, rfl⟩

theorem strLe_total : ∀ a b : Str, (strLe a b || strLe b a) = true := by
  intro a
  induction a with
  | nil => intro b; simp [strLe]
  | cons x as ih =>
    intro b
    cases b with
    | nil => simp [strLe]
    | cons y bs =>
      simp only [strLe]
      by_cases hxy : x < y
      · simp [hxy]
      · by_cases hyx : y < x
        · simp [hyx, hxy]
        · simp [hxy, hyx, ih bs]

theorem strLe_trans :
    ∀ a b c : Str, strLe a b = true → strLe b c = true → strLe a c = true := by
  intro a
  induction a with
  | nil => intro b c h1 h2; rfl
  | cons x as ih =>
    intro b c h1 h2
    cases b with
    | nil => exact absurd h1 (by simp [strLe])
    | cons y bs =>
      cases c with
      | nil => exact absurd h2 (by simp [strLe])
      | cons z cs =>
        rcases lt_trichotomy x y with hxy | hxy | hxy
        · rcases lt_trichotomy y z with hyz | hyz | hyz
          · simp [strLe, lt_trans hxy hyz]
          · subst hyz; simp [strLe, hxy]
          · exfalso
            simp only [strLe] at h2
            rw [if_neg (lt_asymm hyz), if_pos hyz] at h2
            exact Bool.noConfusion h2
        · subst hxy
          rcases lt_trichotomy x z with hxz | hxz | hxz
          · simp [strLe, hxz]
          · subst hxz
            simp only [strLe, lt_self_iff_false, if_false] at h1 h2 ⊢
            exact ih bs cs h1 h2
          · exfalso
            simp only [strLe] at h2
            rw [if_neg (lt_asymm hxz), if_pos hxz] at h2
            exact Bool.noConfusion h2
        · exfalso
          simp only [strLe] at h1
          rw [if_neg (lt_asymm hxy), if_pos hxy] at h1
          exact Bool.noConfusion h1

theorem hasExt_last_eq (f : ApiFile) (ext : String) (c : Char)
    (hc : (str ext).getLast? = some c) (h : hasExt f ext = true) :
    f.name.getLast? = some c := by
  rw [hasExt, List.isSuffixOf_iff_suffix] at h
  obtain ⟨t, ht⟩ := h
  rw [← ht, List.getLast?_append, hc]
  rfl

theorem hasExt_excl (f : ApiFile) (e1 e2 : String) (c1 c2 : Char)
    (h1 : (str e1).getLast? = some c1) (h2 : (str e2).getLast? = some c2) (hne : c1 ≠ c2) :
    ¬(hasExt f e1 = true ∧ hasExt f e2 = true) := by
  rintro ⟨ha, hb⟩
  have x1 := hasExt_last_eq f e1 c1 h1 ha
  have x2 := hasExt_last_eq f e2 c2 h2 hb
  rw [x1] at x2
  injection x2 with x2
  exact hne x2

theorem filter_append_perm_disjoint {α : Type} (p q : α → Bool) (l : List α)
    (h : ∀ x, ¬(p x = true ∧ q x = true)) :
    (l.filter p ++ l.filter q).Perm (l.filter (fun x => p x || q x)) := by
  induction l with
  | nil => simp
  | cons a l ih =>
    by_cases hp : p a = true
    · have hq : q a = false := by
        cases hqa : q a
        · rfl
        · exact absurd ⟨hp, hqa⟩ (h a)
      rw [List.filter_cons_of_pos (by rw [hp]), List.filter_cons_of_neg (by rw [hq]; simp),
        List.filter_cons_of_pos (by rw [hp]; rfl), List.cons_append]
      exact ih.cons a
    · have hp' : p a = false := by
        cases hpa : p a
        · rfl
        · exact absurd hpa hp
      by_cases hq : q a = true
      · rw [List.filter_cons_of_neg (by rw [hp']; simp), List.filter_cons_of_pos (by rw [hq]),
          List.filter_cons_of_pos (by rw [hp', hq]; rfl)]
        exact List.perm_middle.trans (ih.cons a)
      · have hq' : q a = false := by
          cases hqa : q a
          · rfl
          · exact absurd hqa hq
        rw [List.filter_cons_of_neg (by rw [hp']; simp),
          List.filter_cons_of_neg (by rw [hq']; simp),
          List.filter_cons_of_neg (by rw [hp', hq']; simp)]
        exact ih

theorem process_folder_files_perm (entries : List ApiFile) :
    (process_folder_files entries).Perm (entries.filter supportedFile) := by
  unfold process_folder_files
  refine (List.mergeSort_perm _ _).trans ?_
  rw [List.append_assoc, List.append_assoc]
  have hdocdoc : ∀ f : ApiFile,
      ¬(hasExt f ".doc" = true ∧ hasExt f ".txt" = true) := fun f =>
    hasExt_excl f ".doc" ".txt" 'c' 't' (by decide) (by decide) (by decide)
  have h34 := filter_append_perm_disjoint (fun f => hasExt f ".doc")
    (fun f => hasExt f ".txt") entries hdocdoc
  have h234 :=
    (List.Perm.append_left (entries.filter (fun f => hasExt f ".docx")) h34).trans
      (filter_append_perm_disjoint (fun f => hasExt f ".docx")
        (fun f => hasExt f ".doc" || hasExt f ".txt") entries (by
          intro f
          rintro ⟨ha, hb⟩
          rcases Bool.or_eq_true_iff.1 hb with hbb | hbb
          · exact hasExt_excl f ".docx" ".doc" 'x' 'c' (by decide) (by decide) (by decide)
              ⟨ha, hbb⟩
          · exact hasExt_excl f ".docx" ".txt" 'x' 't' (by decide) (by decide) (by decide)
              ⟨ha, hbb⟩))
  have h1234 :=
    (List.Perm.append_left (entries.filter (fun f => hasExt f ".pdf")) h234).trans
      (filter_append_perm_disjoint (fun f => hasExt f ".pdf")
        (fun f => hasExt f ".docx" || (hasExt f ".doc" || hasExt f ".txt")) entries (by
          intro f
          rintro ⟨ha, hb⟩
          rcases Bool.or_eq_true_iff.1 hb with hbb | hbb
          · exact hasExt_excl f ".pdf" ".docx" 'f' 'x' (by decide) (by decide) (by decide)
              ⟨ha, hbb⟩
          · rcases Bool.or_eq_true_iff.1 hbb with hbc | hbc
            · exact hasExt_excl f ".pdf" ".doc" 'f' 'c' (by decide) (by decide) (by decide)
                ⟨ha, hbc⟩
            · exact hasExt_excl f ".pdf" ".txt" 'f' 't' (by decide) (by decide) (by decide)
                ⟨ha, hbc⟩))
  have hpred : (fun x : ApiFile => (fun f => hasExt f ".pdf") x ||
      (fun f => hasExt f ".docx" || (hasExt f ".doc" || hasExt f ".txt")) x) = supportedFile := by
    funext f
    simp [supportedFile, Bool.or_assoc]
  rw [hpred] at h1234
  exact h1234

theorem process_folder_files_sorted (entries : List ApiFile) :
    List.Pairwise (fun a b => strLe a.name b.name = true) (process_folder_files entries) := by
  unfold process_folder_files
  exact List.sorted_mergeSort
    (fun a b c hab hbc => strLe_trans a.name b.name c.name hab hbc)
    (fun a b => strLe_total a.name b.name) _

/-- C3: the report material `process_folder` appends is exactly one section
per input file whose name matches one of the globs `*.pdf`, `*.docx`,
`*.doc`, `*.txt` — the processed list is a permutation of the matching
files — and the sections appear in ascending (lexicographic, code-point)
order of file name. -/
theorem c3_report_sections (entries : List ApiFile) :
    reportSections entries = (process_folder_files entries).map (fun f => (process_file f).1) ∧
    (process_folder_files entries).Perm (entries.filter supportedFile) ∧
    (reportSections entries).length = (entries.filter supportedFile).length ∧
    List.Pairwise (fun a b => strLe a.name b.name = true) (process_folder_files entries) := by
  refine ⟨rfl, process_folder_files_perm entries, ?_, process_folder_files_sorted entries⟩
  simp only [reportSections, List.length_map]
  exact (process_folder_files_perm entries).length_eq

